import Mathlib

/-!
Shallow embedding of the runtime core of the `trade-app` repository
(`src/src-tauri/src`): the Bybit exchange client (request signing and the
windowed historical-kline backfill), the event dispatcher, the shared
application state, and the smart stop-loss module.

Modelling conventions:
* Rust `f64` prices/quantities are modelled as `ℚ` (the arithmetic in the
  verified paths is exact on the inputs considered: sums, products and
  comparisons).
* Rust `i64` timestamps are modelled as `ℤ`; `chrono::DateTime<Utc>` is
  modelled as a unix-millisecond `ℤ`.
* `HashMap` is modelled as a function into `Option` (pointwise
  insert/lookup, exactly the map behaviour the code relies on).
* Network interaction is modelled by an oracle: each HTTP request's outcome
  is a value of an outcome type, supplied as a function argument.
-/

/-- `MarketCategory` from `exchange/bybit.rs`. -/
inductive MarketCategory
  | Spot
  | Linear
  | Inverse
deriving DecidableEq, Repr

/-- `MarketCategory::as_str` from `exchange/bybit.rs`. -/
def MarketCategory.as_str : MarketCategory → String
  | .Spot => "spot"
  | .Linear => "linear"
  | .Inverse => "inverse"

/-- ASCII lowercase mapping of a string, modelling Rust's
`str::to_lowercase` (`Char.toLower` lowercases exactly the ASCII range;
Rust additionally lowercases non-ASCII letters, which none of the
verified facts depend on). -/
def to_lowercase (s : String) : String := String.mk (s.data.map Char.toLower)

/-- `parse_category` from `commands/mod.rs`: lowercase the input, then
map `"spot"` to Spot, `"inverse"` to Inverse, everything else to Linear. -/
def parse_category (s : String) : MarketCategory :=
  match to_lowercase s with
  | "spot" => MarketCategory.Spot
  | "inverse" => MarketCategory.Inverse
  | _ => MarketCategory.Linear

/-- `Exchange` from `models/mod.rs`. -/
inductive Exchange
  | Binance
  | Bybit
deriving DecidableEq, Repr

/-- `StandardTick` from `models/mod.rs` (price/volume as `ℚ`,
timestamp as unix milliseconds). -/
structure StandardTick where
  symbol : String
  price : ℚ
  volume : ℚ
  timestamp : ℤ
  exchange : Exchange
deriving DecidableEq, Repr

/-- `PositionSide` from `models/mod.rs`. -/
inductive PositionSide
  | Long
  | Short
deriving DecidableEq, Repr

/-- `Position` from `models/mod.rs`. -/
structure Position where
  id : String
  symbol : String
  side : PositionSide
  entry_price : ℚ
  quantity : ℚ
  stop_loss : Option ℚ
  take_profit : Option ℚ
  created_at : ℤ
deriving DecidableEq, Repr

/-- `Theme` from `models/mod.rs`. -/
inductive Theme
  | Light
  | Dark
deriving DecidableEq, Repr

/-- `UserSettings` from `models/mod.rs`. -/
structure UserSettings where
  default_risk_percent : ℚ
  max_daily_loss : ℚ
  theme : Theme
deriving DecidableEq, Repr

/-- `AlarmCondition` from `models/mod.rs`. -/
inductive AlarmCondition
  | PriceAbove
  | PriceBelow
  | CrossVwap
  | CrossVal
  | CrossVah
deriving DecidableEq, Repr

/-- `NotificationType` from `models/mod.rs`. -/
inductive NotificationType
  | Visual
  | Sound
  | OsNative
  | Webhook
deriving DecidableEq, Repr

/-- `Alarm` from `models/mod.rs`. -/
structure Alarm where
  id : String
  symbol : String
  condition : AlarmCondition
  target_price : ℚ
  is_active : Bool
  notification_type : NotificationType
deriving DecidableEq, Repr

/-- `AppEvent` from `core/dispatcher.rs`. -/
inductive AppEvent
  | PriceUpdated (tick : StandardTick)
  | BalanceChanged (symbol : String) (balance : ℚ)
  | PositionOpened (position_id : String)
  | PositionClosed (position_id : String) (pnl : ℚ)
  | AlarmTriggered (alarm_id : String)
  | ModuleStateChanged (module_id : String) (is_active : Bool)
deriving DecidableEq, Repr

/-- `tokio::sync::broadcast::error::SendError`: the rejected event is
handed back to the caller. -/
structure SendError where
  event : AppEvent
deriving DecidableEq, Repr

/-- `EventDispatcher` from `core/dispatcher.rs`, wrapping a
`tokio::sync::broadcast` channel.  The channel is modelled by its
capacity and the pending (not yet consumed) queue of each live
receiver; the single global publish order is the order of each queue. -/
structure EventDispatcher where
  capacity : ℕ
  receivers : List (List AppEvent)
deriving DecidableEq, Repr

/-- `EventDispatcher::new` from `core/dispatcher.rs`
(`broadcast::channel(capacity)` starts with no receivers). -/
def EventDispatcher.new (capacity : ℕ) : EventDispatcher :=
  { capacity := capacity, receivers := [] }

/-- `EventDispatcher::default` from `core/dispatcher.rs`: capacity 1024. -/
def EventDispatcher.default : EventDispatcher := EventDispatcher.new 1024

/-- `EventDispatcher::publish` from `core/dispatcher.rs`, i.e.
`broadcast::Sender::send`: with no live receivers the event comes back as
`SendError`; otherwise every live receiver's queue gets the event (a
receiver more than `capacity` behind drops its oldest pending events) and
the number of receivers the event was sent to is returned. -/
def EventDispatcher.publish (d : EventDispatcher) (event : AppEvent) :
    Except SendError (ℕ × EventDispatcher) :=
  if d.receivers.isEmpty then
    Except.error { event := event }
  else
    Except.ok (d.receivers.length,
      { d with receivers := d.receivers.map (fun q =>
          let q := q ++ [event]
          q.drop (q.length - d.capacity)) })

/-- `EventDispatcher::subscribe` from `core/dispatcher.rs`, i.e.
`broadcast::Sender::subscribe`: always succeeds, returning the dispatcher
with one more live receiver (which starts with nothing pending and sees
only events published after this point) and the new receiver's handle
(modelled as its index). -/
def EventDispatcher.subscribe (d : EventDispatcher) : EventDispatcher × ℕ :=
  ({ d with receivers := d.receivers ++ [[]] }, d.receivers.length)

/-- `AppState` from `core/state.rs`.  Each `Arc<RwLock<_>>` field is
modelled by its contents; the price and module-activity maps as
functions into `Option`. -/
structure AppState where
  dispatcher : EventDispatcher
  live_prices : String → Option StandardTick
  alarms : List Alarm
  settings : UserSettings
  positions : List Position
  active_modules : String → Option Bool

/-- The dispatcher-state effect of `let _ = self.dispatcher.publish(..)`:
the publish result is discarded, the receiver queues keep whatever the
publish did to them (nothing, when it errored for lack of receivers). -/
def publish_and_ignore (d : EventDispatcher) (event : AppEvent) : EventDispatcher :=
  match d.publish event with
  | Except.ok (_, d') => d'
  | Except.error _ => d

/-- `AppState::update_price` from `core/state.rs`: replace-or-insert the
tick into the price map keyed by its symbol, then publish `PriceUpdated`. -/
def AppState.update_price (st : AppState) (tick : StandardTick) : AppState :=
  let symbol := tick.symbol
  let st := { st with live_prices := fun s =>
      if s = symbol then some tick else st.live_prices s }
  { st with dispatcher := publish_and_ignore st.dispatcher (AppEvent.PriceUpdated tick) }

/-- `AppState::get_price` from `core/state.rs`: point read of the price
map, returning a clone. -/
def AppState.get_price (st : AppState) (symbol : String) : Option StandardTick :=
  st.live_prices symbol

/-- `ModuleError` from `modules/traits.rs`. -/
inductive ModuleError
  | InitializationFailed (msg : String)
  | ExecutionFailed (msg : String)
  | Unauthorized (msg : String)
  | ConnectionError (msg : String)
  | Other (msg : String)
deriving DecidableEq, Repr

/-- `StopLossModule` from `modules/stop_loss.rs`.  The
`Option<Arc<AppState>>` handle is modelled as `Option Unit`: `some ()`
means the module was initialized with the handle to the shared
`AppState` that the callbacks receive alongside the module. -/
structure StopLossModule where
  is_active : Bool
  state : Option Unit
  auto_breakeven : Bool
  breakeven_threshold : ℚ
deriving DecidableEq, Repr

/-- `StopLossModule::new` from `modules/stop_loss.rs`. -/
def StopLossModule.new : StopLossModule :=
  { is_active := false, state := none, auto_breakeven := true, breakeven_threshold := 1 }

/-- `StopLossModule::check_breakeven` from `modules/stop_loss.rs`:
`stop = stop_loss.unwrap_or(entry)`, `risk = |entry - stop|`; Long
triggers at `price ≥ entry + risk * threshold`, Short at
`price ≤ entry - risk * threshold`. -/
def check_breakeven (m : StopLossModule) (position : Position) (current_price : ℚ) : Bool :=
  let entry := position.entry_price
  let stop := position.stop_loss.getD entry
  let risk := |entry - stop|
  match position.side with
  | PositionSide.Long => decide (current_price ≥ entry + risk * m.breakeven_threshold)
  | PositionSide.Short => decide (current_price ≤ entry - risk * m.breakeven_threshold)

/-- The observable signals `on_price_tick` emits (the `tracing` log
events marking a triggered breakeven / stop-loss; order execution is out
of scope in the source, both are signal-only). -/
inductive Signal
  | BreakevenTriggered (symbol : String) (price : ℚ)
  | StopLossTriggered (symbol : String) (price : ℚ) (stop : ℚ)
deriving DecidableEq, Repr

/-- The per-position body of the loop in
`StopLossModule::on_price_tick`: breakeven check (gated by
`auto_breakeven`), then stop-trigger check when `stop_loss` is set. -/
def position_signals (m : StopLossModule) (tick : StandardTick) (position : Position) :
    List Signal :=
  if position.symbol = tick.symbol then
    (if m.auto_breakeven && check_breakeven m position tick.price then
      [Signal.BreakevenTriggered position.symbol tick.price]
    else []) ++
    (match position.stop_loss with
     | some stop =>
       let should_close :=
         match position.side with
         | PositionSide.Long => decide (tick.price ≤ stop)
         | PositionSide.Short => decide (tick.price ≥ stop)
       if should_close then [Signal.StopLossTriggered position.symbol tick.price stop]
       else []
     | none => [])
  else []

/-- `StopLossModule::on_price_tick` from `modules/stop_loss.rs` as a pure
transition: given the module, the shared state its handle points to and
the tick, it returns the module and state after the call, the call's
result, and the emitted signals.  Inactive modules return `Ok(())`
before touching anything; an uninitialized handle is
`InitializationFailed`; otherwise every open position matching the
tick's symbol is evaluated. -/
def on_price_tick (m : StopLossModule) (st : AppState) (tick : StandardTick) :
    StopLossModule × AppState × Except ModuleError Unit × List Signal :=
  if !m.is_active then
    (m, st, Except.ok (), [])
  else
    match m.state with
    | none => (m, st, Except.error (ModuleError.InitializationFailed "State not initialized"), [])
    | some _ =>
      (m, st, Except.ok (), st.positions.flatMap (position_signals m tick))

/-- `BybitError` from `exchange/bybit.rs`. -/
inductive BybitError
  | NetworkError (msg : String)
  | ApiError (msg : String)
  | ParseError (msg : String)
  | AuthError (msg : String)
deriving DecidableEq, Repr

/-- `Kline` from `exchange/bybit.rs` (the field named `open` in the
source is `open_` here, `open` being a Lean keyword). -/
structure Kline where
  timestamp : ℤ
  open_ : ℚ
  high : ℚ
  low : ℚ
  close : ℚ
  volume : ℚ
deriving DecidableEq, Repr

/-- The response envelope `BybitResponse<T>` from `exchange/bybit.rs`. -/
structure BybitResponse (α : Type) where
  ret_code : ℤ
  ret_msg : String
  result : Option α
deriving DecidableEq, Repr

/-- Outcome of one HTTP request in the backfill loop, as the nested
`if let` chain in `get_all_klines` distinguishes them: transport failure
(`send()` errored), unreadable body (`text()` errored), an unparsable
body (`serde_json` errored), or a parsed envelope.  Rows of a parsed
envelope are given directly as `Kline`s: the source parses each string
field with `parse().unwrap_or(default)`, a total map, so every possible
row list is a `List Kline`. -/
inductive HttpOutcome (α : Type)
  | sendFailed (msg : String)
  | textFailed (msg : String)
  | parseFailed (msg : String)
  | parsed (resp : BybitResponse α)
deriving DecidableEq, Repr

/-- Candles one window's outcome contributes to `all_klines` in
`get_all_klines`: only a parsed envelope with `ret_code == 0` and a
present `result` contributes its rows; every failure contributes
nothing. -/
def windowKlines (o : HttpOutcome (List Kline)) : List Kline :=
  match o with
  | HttpOutcome.parsed resp =>
    if resp.ret_code = 0 then resp.result.getD [] else []
  | _ => []

/-- A window outcome the source's collection loop rejects: transport,
body or parse failure, or a parsed envelope with non-zero `ret_code` or
missing `result`. -/
def is_failure (o : HttpOutcome (List Kline)) : Bool :=
  match o with
  | HttpOutcome.parsed resp => if resp.ret_code = 0 then resp.result.isNone else true
  | _ => true

/-- The `interval_ms` lookup in `get_all_klines`: per-candle duration in
milliseconds; unknown interval strings default to 15 minutes. -/
def interval_ms (interval : String) : ℤ :=
  match interval with
  | "1" => 60000
  | "3" => 180000
  | "5" => 300000
  | "15" => 900000
  | "30" => 1800000
  | "60" => 3600000
  | "120" => 7200000
  | "240" => 14400000
  | "360" => 21600000
  | "720" => 43200000
  | "D" | "d" => 86400000
  | "W" | "w" => 604800000
  | "M" | "m" => 2592000000
  | _ => 900000

/-- `((total as f64) / (batch as f64)).ceil() as usize` for positive
`batch`: exact ceiling division clamped below at zero (the `as usize`
cast saturates negatives to 0).  The source computes the quotient in
`f64`, which agrees with the exact value for every magnitude below
2^53; nothing verified here depends on the excess range, since the
result is capped at 20 immediately after. -/
def ceil_div_to_usize (total batch : ℤ) : ℕ :=
  (Int.ediv (total + batch - 1) batch).toNat

/-- The `batch_ranges` loop in `get_all_klines`: walk backward from
`batch_end` in `batch_duration`-sized windows, clamping each window's
start at `start`, stopping after `fuel` windows or as soon as the next
window's end would be at or before `start`. -/
def batch_ranges_loop (batch_duration start : ℤ) : ℕ → ℤ → List (ℤ × ℤ)
  | 0, _ => []
  | n + 1, batch_end =>
    let batch_start := max (batch_end - batch_duration) start
    (batch_start, batch_end) ::
      (if batch_start - 1 ≤ start then []
       else batch_ranges_loop batch_duration start n (batch_start - 1))

/-- The request windows `get_all_klines` issues: resolve `end` to `now`
and `start` to the 2020-03-01 epoch default, size windows at
`interval_ms * 1000` (1000 candles each), count them by ceiling
division capped at 20, and walk backward from `end`. -/
def kline_windows (interval : String) (start_time end_time : Option ℤ) (now : ℤ) :
    List (ℤ × ℤ) :=
  let current_end := end_time.getD now
  let start := start_time.getD 1583020800000
  let batch_duration := interval_ms interval * 1000
  let total_duration := current_end - start
  let num_batches := min (ceil_div_to_usize total_duration batch_duration) 20
  batch_ranges_loop batch_duration start num_batches current_end

/-- Ordering on candles by timestamp, the key ordering of
`all_klines.sort_by_key(|k| k.timestamp)`. -/
def ts_le (a b : Kline) : Prop := a.timestamp ≤ b.timestamp

instance : DecidableRel ts_le := fun a b => Int.decLe a.timestamp b.timestamp

instance : IsTotal Kline ts_le := ⟨fun a b => Int.le_total a.timestamp b.timestamp⟩

instance : IsTrans Kline ts_le := ⟨fun _ _ _ h h' => le_trans h h'⟩

/-- Helper for `dedup_by_key`: `a` is the first element of the current
run of equal keys; later elements of the run are dropped, a changed key
emits `a` and starts a new run. -/
def dedup_run {α β : Type} [DecidableEq β] (key : α → β) (a : α) : List α → List α
  | [] => [a]
  | b :: rest =>
    if key a = key b then dedup_run key a rest
    else a :: dedup_run key b rest

/-- Rust `Vec::dedup_by_key`: of each run of consecutive elements with
equal key, keep the first. -/
def dedup_by_key {α β : Type} [DecidableEq β] (key : α → β) : List α → List α
  | [] => []
  | a :: rest => dedup_run key a rest

/-- The post-collection pipeline of `get_all_klines`: retain candles at
or after an explicitly supplied `start_time`, sort ascending by
timestamp (`sort_by_key`, a stable sort, modelled by insertion sort —
stable and sorted, hence extensionally the same list), then drop
consecutive duplicate timestamps. -/
def postprocess (start_time : Option ℤ) (l : List Kline) : List Kline :=
  let l :=
    match start_time with
    | some start_ts => l.filter (fun k => decide (start_ts ≤ k.timestamp))
    | none => l
  dedup_by_key (fun k => k.timestamp) (List.insertionSort ts_le l)

/-- `BybitClient::get_all_klines` from `exchange/bybit.rs`.  The network
is the oracle `responses`, giving the outcome of the request issued for
the i-th window (the source fires them in chunks of 5 with a 50 ms
pause between chunks; collection order is window order, and the pause
has no effect on the returned value).  Failed windows contribute
nothing; the function never returns an error.  `symbol` and `category`
only shape the request URLs, not the result's structure. -/
def get_all_klines (symbol : String) (category : MarketCategory) (interval : String)
    (start_time end_time : Option ℤ) (now : ℤ)
    (responses : ℕ → HttpOutcome (List Kline)) : Except BybitError (List Kline) :=
  let _ := symbol
  let _ := category
  let ranges := kline_windows interval start_time end_time now
  let all_klines := (List.range ranges.length).flatMap (fun i => windowKlines (responses i))
  Except.ok (postprocess start_time all_klines)

/-- Truncation to a 32-bit word, the wrap-around of `u32` arithmetic
inside SHA-256. -/
def w32 (n : ℕ) : ℕ := n % 4294967296

/-- 32-bit right rotation. -/
def rotr32 (x n : ℕ) : ℕ := w32 ((x >>> n) ||| (x <<< (32 - n)))

/-- SHA-256 small sigma 0. -/
def ssig0 (x : ℕ) : ℕ := (rotr32 x 7) ^^^ (rotr32 x 18) ^^^ (x >>> 3)

/-- SHA-256 small sigma 1. -/
def ssig1 (x : ℕ) : ℕ := (rotr32 x 17) ^^^ (rotr32 x 19) ^^^ (x >>> 10)

/-- SHA-256 big sigma 0. -/
def bsig0 (x : ℕ) : ℕ := (rotr32 x 2) ^^^ (rotr32 x 13) ^^^ (rotr32 x 22)

/-- SHA-256 big sigma 1. -/
def bsig1 (x : ℕ) : ℕ := (rotr32 x 6) ^^^ (rotr32 x 11) ^^^ (rotr32 x 25)

/-- The SHA-256 round constants (FIPS 180-4, written in decimal). -/
def K256 : List ℕ :=
  [1116352408, 1899447441, 3049323471, 3921009573, 961987163,
   1508970993, 2453635748, 2870763221, 3624381080, 310598401,
   607225278, 1426881987, 1925078388, 2162078206, 2614888103,
   3248222580, 3835390401, 4022224774, 264347078, 604807628,
   770255983, 1249150122, 1555081692, 1996064986, 2554220882,
   2821834349, 2952996808, 3210313671, 3336571891, 3584528711,
   113926993, 338241895, 666307205, 773529912, 1294757372,
   1396182291, 1695183700, 1986661051, 2177026350, 2456956037,
   2730485921, 2820302411, 3259730800, 3345764771, 3516065817,
   3600352804, 4094571909, 275423344, 430227734, 506948616,
   659060556, 883997877, 958139571, 1322822218, 1537002063,
   1747873779, 1955562222, 2024104815, 2227730452, 2361852424,
   2428436474, 2756734187, 3204031479, 3329325298]

/-- The SHA-256 initial hash value (FIPS 180-4, written in decimal). -/
def H256 : List ℕ :=
  [1779033703, 3144134277, 1013904242, 2773480762,
   1359893119, 2600822924, 528734635, 1541459225]

/-- Big-endian byte rendering of `n` on `count` bytes. -/
def to_bytes_be (count n : ℕ) : List ℕ :=
  (List.range count).map (fun i => (n >>> (8 * (count - 1 - i))) % 256)

/-- Big-endian word assembled from a byte list. -/
def word_of_bytes (bs : List ℕ) : ℕ := bs.foldl (fun acc b => acc * 256 + b) 0

/-- Fuel-driven worker for `chunks_of` (structural recursion on the
fuel so the kernel can evaluate it; `fuel = l.length` always
suffices when `n > 0`). -/
def chunks_of_fuel {α : Type} (n : ℕ) : ℕ → List α → List (List α)
  | 0, _ => []
  | _, [] => []
  | fuel + 1, a :: rest => (a :: rest).take n :: chunks_of_fuel n fuel ((a :: rest).drop n)

/-- Split a list into chunks of `n` elements (the last one possibly
shorter); `n = 0` gives no chunks. -/
def chunks_of {α : Type} (n : ℕ) (l : List α) : List (List α) :=
  if n = 0 then [] else chunks_of_fuel n l.length l

/-- SHA-256 padding: append `0x80`, zero-fill to 56 mod 64, then the
original length in bits on 8 big-endian bytes. -/
def sha256_pad (msg : List ℕ) : List ℕ :=
  let l := msg.length
  let zeros := (119 - l % 64) % 64
  msg ++ [0x80] ++ List.replicate zeros 0 ++ to_bytes_be 8 (8 * l)

/-- Extend a 16-word block schedule by `n` further words. -/
def extend_schedule : ℕ → List ℕ → List ℕ
  | 0, ws => ws
  | n + 1, ws =>
    let i := ws.length
    let w := w32 (ws.getD (i - 16) 0 + ssig0 (ws.getD (i - 15) 0) +
                  ws.getD (i - 7) 0 + ssig1 (ws.getD (i - 2) 0))
    extend_schedule n (ws ++ [w])

/-- One SHA-256 compression round on the eight-word working state. -/
def compress_step (st : List ℕ) (wk : ℕ × ℕ) : List ℕ :=
  match st with
  | [a, b, c, d, e, f, g, h] =>
    let ch := (e &&& f) ^^^ ((4294967295 - e) &&& g)
    let maj := (a &&& b) ^^^ (a &&& c) ^^^ (b &&& c)
    let t1 := w32 (h + bsig1 e + ch + wk.1 + wk.2)
    let t2 := w32 (bsig0 a + maj)
    [w32 (t1 + t2), a, b, c, w32 (d + t1), e, f, g]
  | _ => st

/-- Process one 64-byte block into the running hash value. -/
def sha256_block (h : List ℕ) (block : List ℕ) : List ℕ :=
  let ws := extend_schedule 48 ((chunks_of 4 block).map word_of_bytes)
  let st := (ws.zip K256).foldl compress_step h
  (h.zip st).map (fun p => w32 (p.1 + p.2))

/-- SHA-256 of a byte list, as a 32-byte list. -/
def sha256_bytes (msg : List ℕ) : List ℕ :=
  ((chunks_of 64 (sha256_pad msg)).foldl sha256_block H256).flatMap (to_bytes_be 4)

/-- HMAC-SHA256 (RFC 2104, block size 64): hash over-long keys,
zero-pad to the block size, inner pad `0x36`, outer pad `0x5c`. -/
def hmac_sha256 (key msg : List ℕ) : List ℕ :=
  let k0 := if key.length > 64 then sha256_bytes key else key
  let k := k0 ++ List.replicate (64 - k0.length) 0
  let ipad := k.map (fun b => b ^^^ 0x36)
  let opad := k.map (fun b => b ^^^ 0x5c)
  sha256_bytes (opad ++ sha256_bytes (ipad ++ msg))

/-- Lowercase hexadecimal digit for `n < 16`. -/
def hex_digit (n : ℕ) : Char :=
  if n < 10 then Char.ofNat (48 + n) else Char.ofNat (87 + n)

/-- Lowercase hexadecimal rendering of a byte list, two digits per
byte, modelling `hex::encode`. -/
def hex_encode (bs : List ℕ) : String :=
  String.mk (bs.flatMap (fun b => [hex_digit (b / 16), hex_digit (b % 16)]))

/-- UTF-8 encoding of one scalar value (RFC 3629). -/
def utf8_encode_char (c : Char) : List ℕ :=
  let n := c.toNat
  if n < 0x80 then [n]
  else if n < 0x800 then
    [0xC0 ||| (n >>> 6), 0x80 ||| (n &&& 0x3F)]
  else if n < 0x10000 then
    [0xE0 ||| (n >>> 12), 0x80 ||| ((n >>> 6) &&& 0x3F), 0x80 ||| (n &&& 0x3F)]
  else
    [0xF0 ||| (n >>> 18), 0x80 ||| ((n >>> 12) &&& 0x3F),
     0x80 ||| ((n >>> 6) &&& 0x3F), 0x80 ||| (n &&& 0x3F)]

/-- UTF-8 bytes of a string, modelling Rust's `str::as_bytes`. -/
def utf8_bytes (s : String) : List ℕ := s.data.flatMap utf8_encode_char

/-- `BybitClient` from `exchange/bybit.rs` (the reqwest handle carries
no data relevant here). -/
structure BybitClient where
  api_key : String
  api_secret : String
  testnet : Bool
deriving DecidableEq, Repr

/-- `BybitClient::sign` from `exchange/bybit.rs`: HMAC-SHA256 of
`format!("{}{}{}{}", timestamp, api_key, recv_window, params)` keyed by
the secret, hex-encoded. -/
def BybitClient.sign (c : BybitClient) (params : String) (timestamp recv_window : ℤ) :
    String :=
  let sign_str := toString timestamp ++ c.api_key ++ toString recv_window ++ params
  hex_encode (hmac_sha256 (utf8_bytes c.api_secret) (utf8_bytes sign_str))

/-- `BybitClient::auth_headers` from `exchange/bybit.rs`: fixes
`recv_window` at 5000 and signs with the wall-clock timestamp, given
here as `now_ms`.  The `HashMap` is modelled as the association list of
its inserted entries. -/
def BybitClient.auth_headers (c : BybitClient) (params : String) (now_ms : ℤ) :
    List (String × String) :=
  let timestamp := now_ms
  let recv_window : ℤ := 5000
  let signature := c.sign params timestamp recv_window
  [("X-BAPI-API-KEY", c.api_key),
   ("X-BAPI-SIGN", signature),
   ("X-BAPI-TIMESTAMP", toString timestamp),
   ("X-BAPI-RECV-WINDOW", toString recv_window),
   ("Content-Type", "application/json")]

set_option maxRecDepth 100000

/-! ## Shared concrete values used by the verification theorems -/

/-- A stop-loss module as configured by `StopLossModule::new`, toggled
active: threshold 1 (1R), auto-breakeven on, initialized. -/
def demo_module : StopLossModule :=
  { is_active := true, state := some (), auto_breakeven := true, breakeven_threshold := 1 }

/-- A Long position: entry 100, stop-loss 95. -/
def demo_long_position : Position :=
  { id := "p1", symbol := "BTCUSDT", side := PositionSide.Long, entry_price := 100,
    quantity := 1, stop_loss := some 95, take_profit := none, created_at := 0 }

/-- A Long position with no stop-loss set. -/
def demo_nostop_position : Position :=
  { id := "p2", symbol := "BTCUSDT", side := PositionSide.Long, entry_price := 100,
    quantity := 1, stop_loss := none, take_profit := none, created_at := 0 }

/-- A fresh shared state: no prices, alarms, positions or module flags. -/
def demo_state : AppState :=
  { dispatcher := EventDispatcher.default, live_prices := fun _ => none,
    alarms := [], settings := { default_risk_percent := 1, max_daily_loss := 5, theme := Theme.Dark },
    positions := [], active_modules := fun _ => none }

/-- A concrete tick for BTCUSDT. -/
def demo_tick : StandardTick :=
  { symbol := "BTCUSDT", price := 103, volume := 2, timestamp := 1700000000000,
    exchange := Exchange.Bybit }

/-- An inactive stop-loss module (as constructed, before toggling). -/
def demo_inactive_module : StopLossModule := StopLossModule.new

/-- A state holding one open position, as `on_price_tick` would scan. -/
def demo_state_with_position : AppState :=
  { demo_state with positions := [demo_long_position] }

/-! ## C3 / C10: breakeven detection -/

/-- C3: `check_breakeven` returns true exactly when, with
`entry = position.entry_price`, `stop = position.stop_loss or entry` and
`risk = |entry - stop|`, a Long position has
`price ≥ entry + risk * threshold` and a Short position has
`price ≤ entry - risk * threshold`; in particular with entry 100,
stop 95 and threshold 1 a Long position triggers at 105 and not at
104.99. -/
theorem check_breakeven_spec :
    (∀ (m : StopLossModule) (position : Position) (price : ℚ),
      check_breakeven m position price = true ↔
        (let entry := position.entry_price
         let stop := position.stop_loss.getD entry
         let risk := |entry - stop|
         match position.side with
         | PositionSide.Long => price ≥ entry + risk * m.breakeven_threshold
         | PositionSide.Short => price ≤ entry - risk * m.breakeven_threshold)) ∧
    check_breakeven demo_module demo_long_position 105 = true ∧
    check_breakeven demo_module demo_long_position (10499 / 100) = false := by
  refine ⟨fun m position price => ?_,
    by norm_num [check_breakeven, demo_module, demo_long_position],
    by norm_num [check_breakeven, demo_module, demo_long_position]⟩
  rcases position with ⟨id, symbol, side, entry, qty, sl, tp, ca⟩
  cases side <;> simp [check_breakeven]

/-- C10: when `stop_loss` is `None`, the substituted stop equals the
entry, the risk is zero, and the breakeven condition degenerates to
`price ≥ entry` (Long) / `price ≤ entry` (Short), for every configured
threshold. -/
theorem check_breakeven_degenerate_no_stop (m : StopLossModule) (position : Position)
    (price : ℚ) (h : position.stop_loss = none) :
    check_breakeven m position price = true ↔
      (match position.side with
       | PositionSide.Long => price ≥ position.entry_price
       | PositionSide.Short => price ≤ position.entry_price) := by
  rcases position with ⟨id, symbol, side, entry, qty, sl, tp, ca⟩
  cases sl with
  | none => cases side <;> simp [check_breakeven]
  | some s => simp at h

/-- Concrete instance of `check_breakeven_degenerate_no_stop`: a Long
position with no stop triggers at its entry price whatever the
threshold is. -/
theorem check_breakeven_degenerate_no_stop_witness :
    check_breakeven demo_module demo_nostop_position 100 = true := by
  have h := check_breakeven_degenerate_no_stop demo_module demo_nostop_position 100 rfl
  rw [h]
  norm_num [demo_nostop_position]

/-! ## C6: inactive module callback is a no-op -/

/-- C6: when the module's `is_active` flag is false, `on_price_tick`
early-returns `Ok(())` for every tick: the module's fields and the
shared state are unchanged and no breakeven or stop-loss signal is
emitted. -/
theorem on_price_tick_inactive_noop (m : StopLossModule) (st : AppState)
    (tick : StandardTick) (h : m.is_active = false) :
    on_price_tick m st tick = (m, st, Except.ok (), []) := by
  simp [on_price_tick, h]

/-- Concrete instance of `on_price_tick_inactive_noop`: the freshly
constructed (inactive) module ticked against a state holding a matching
position changes nothing and emits nothing. -/
theorem on_price_tick_inactive_noop_witness :
    on_price_tick demo_inactive_module demo_state_with_position demo_tick =
      (demo_inactive_module, demo_state_with_position, Except.ok (), []) :=
  on_price_tick_inactive_noop demo_inactive_module demo_state_with_position demo_tick rfl

/-! ## C7: update_price / get_price round trip -/

/-- C7: after `update_price(tick)`, `get_price(tick.symbol)` with no
intervening write returns exactly the just-written tick, and the stored
entry of every other symbol is unchanged. -/
theorem update_price_then_get_price (st : AppState) (tick : StandardTick) :
    (st.update_price tick).get_price tick.symbol = some tick ∧
    ∀ s, s ≠ tick.symbol → (st.update_price tick).get_price s = st.get_price s := by
  constructor
  · simp [AppState.update_price, AppState.get_price]
  · intro s hs
    simp [AppState.update_price, AppState.get_price, hs]

/-- Concrete instance of `update_price_then_get_price`: writing the
BTCUSDT tick makes it readable and leaves ETHUSDT's (absent) entry
untouched. -/
theorem update_price_then_get_price_witness :
    (demo_state.update_price demo_tick).get_price "BTCUSDT" = some demo_tick ∧
    (demo_state.update_price demo_tick).get_price "ETHUSDT" = demo_state.get_price "ETHUSDT" := by
  have h := update_price_then_get_price demo_state demo_tick
  exact ⟨h.1, h.2 "ETHUSDT" (by decide)⟩

/-! ## C8: dispatcher publish/subscribe contract -/

/-- C8: `publish` returns `Ok n` with `n` the number of live
subscribers exactly when there is at least one (each of their pending
queues receives the event, at the newest position, provided the channel
capacity is nonzero); with zero subscribers it returns the error
carrying the event back.  `subscribe` always succeeds and returns a
fresh receiver handle (one more live receiver, starting empty). -/
theorem publish_subscribe_contract :
    (∀ (d : EventDispatcher) (e : AppEvent),
      (∃ d', d.publish e = Except.ok (d.receivers.length, d')) ↔ d.receivers.length ≠ 0) ∧
    (∀ (d : EventDispatcher) (e : AppEvent), d.receivers.length = 0 →
      d.publish e = Except.error { event := e }) ∧
    (∀ (d : EventDispatcher) (e : AppEvent) (d' : EventDispatcher),
      d.capacity ≠ 0 → d.publish e = Except.ok (d.receivers.length, d') →
      d'.receivers.length = d.receivers.length ∧
      ∀ q ∈ d'.receivers, q.getLast? = some e) ∧
    (∀ d : EventDispatcher,
      (d.subscribe.1).receivers = d.receivers ++ [[]] ∧
      d.subscribe.2 = d.receivers.length) := by
  refine ⟨fun d e => ?_, fun d e h => ?_, fun d e d' hcap hok => ?_, fun d => ⟨rfl, rfl⟩⟩
  · constructor
    · rintro ⟨d', hd'⟩ hlen
      rw [List.length_eq_zero] at hlen
      simp [EventDispatcher.publish, hlen] at hd'
    · intro hlen
      refine ⟨{ d with receivers := d.receivers.map (fun q =>
          let q := q ++ [e]
          q.drop (q.length - d.capacity)) }, ?_⟩
      rw [EventDispatcher.publish, if_neg ?_]
      intro hemp
      exact hlen (by simpa [List.isEmpty_iff] using hemp)
  · rw [List.length_eq_zero] at h
    simp [EventDispatcher.publish, h]
  · rw [EventDispatcher.publish] at hok
    by_cases hemp : d.receivers.isEmpty
    · simp [hemp] at hok
    · rw [if_neg hemp] at hok
      injection hok with hok
      injection hok with _ hd'
      subst hd'
      constructor
      · simp
      · intro q hq
        simp only [List.mem_map] at hq
        obtain ⟨q0, _hmem, hq0⟩ := hq
        subst hq0
        show ((q0 ++ [e]).drop ((q0 ++ [e]).length - d.capacity)).getLast? = some e
        rw [List.getLast?_drop, if_neg]
        · exact List.getLast?_concat q0
        · simp only [List.length_append, List.length_cons, List.length_nil]
          omega

/-- A dispatcher with exactly one live subscriber (default capacity). -/
def demo_dispatcher : EventDispatcher := (EventDispatcher.default.subscribe).1

/-- Concrete instance of `publish_subscribe_contract`: with one
subscriber, publish succeeds and the subscriber's queue ends with the
event; with zero subscribers it returns the error carrying the event. -/
theorem publish_subscribe_contract_witness :
    (∃ d', demo_dispatcher.publish (AppEvent.PriceUpdated demo_tick) =
      Except.ok (demo_dispatcher.receivers.length, d')) ∧
    (∀ q ∈ (EventDispatcher.mk 1024 [[AppEvent.PriceUpdated demo_tick]]).receivers,
      q.getLast? = some (AppEvent.PriceUpdated demo_tick)) ∧
    EventDispatcher.default.publish (AppEvent.PriceUpdated demo_tick) =
      Except.error { event := AppEvent.PriceUpdated demo_tick } :=
  ⟨(publish_subscribe_contract.1 demo_dispatcher (AppEvent.PriceUpdated demo_tick)).mpr
      (by decide),
   (publish_subscribe_contract.2.2.1 demo_dispatcher (AppEvent.PriceUpdated demo_tick)
      (EventDispatcher.mk 1024 [[AppEvent.PriceUpdated demo_tick]]) (by decide) rfl).2,
   publish_subscribe_contract.2.1 EventDispatcher.default (AppEvent.PriceUpdated demo_tick) rfl⟩

/-! ## C9: externally supplied category strings -/

/-- C9 counterexample: `"SPOT"` is none of the three literal strings
`"spot"`, `"linear"`, `"inverse"`, yet it parses to Spot, not to the
claimed Linear default — `parse_category` lowercases its input before
matching. -/
theorem parse_category_counterexample :
    parse_category "SPOT" = MarketCategory.Spot ∧
    parse_category "SPOT" ≠ MarketCategory.Linear ∧
    "SPOT" ≠ "spot" ∧ "SPOT" ≠ "linear" ∧ "SPOT" ≠ "inverse" := by
  decide

/-- C9 (amended): matching is case-insensitive — a string parses to
Spot exactly when its lowercase form is `"spot"`, to Inverse exactly
when it is `"inverse"`, and to Linear in every other case (`"linear"`
itself goes through the default arm). -/
theorem parse_category_amended (s : String) :
    (parse_category s = MarketCategory.Spot ↔ to_lowercase s = "spot") ∧
    (parse_category s = MarketCategory.Inverse ↔ to_lowercase s = "inverse") ∧
    (parse_category s = MarketCategory.Linear ↔
      to_lowercase s ≠ "spot" ∧ to_lowercase s ≠ "inverse") := by
  by_cases h1 : to_lowercase s = "spot"
  · simp [parse_category, h1]
  · by_cases h2 : to_lowercase s = "inverse"
    · simp [parse_category, h2, h1]
    · have hlin : parse_category s = MarketCategory.Linear := by
        unfold parse_category
        split
        next heq => exact absurd heq h1
        next heq => exact absurd heq h2
        next => rfl
      simp [hlin, h1, h2]

/-- Concrete instances of `parse_category_amended` across the case
boundary: uppercase and mixed-case variants select their category, and
an unknown string falls back to Linear. -/
theorem parse_category_amended_witness :
    parse_category "SPOT" = MarketCategory.Spot ∧
    parse_category "Inverse" = MarketCategory.Inverse ∧
    parse_category "Linear" = MarketCategory.Linear ∧
    parse_category "qqq" = MarketCategory.Linear :=
  ⟨(parse_category_amended "SPOT").1.mpr (by decide),
   (parse_category_amended "Inverse").2.1.mpr (by decide),
   (parse_category_amended "Linear").2.2.mpr (by decide),
   (parse_category_amended "qqq").2.2.mpr (by decide)⟩

/-! ## Supporting lemmas on `dedup_run` / `dedup_by_key` -/

/-- `dedup_run key a l` is a sublist of `a :: l`. -/
theorem dedup_run_sublist {α β : Type} [DecidableEq β] (key : α → β) :
    ∀ (l : List α) (a : α), (dedup_run key a l).Sublist (a :: l)
  | [], a => by simp [dedup_run]
  | b :: rest, a => by
    rw [dedup_run]
    by_cases hk : key a = key b
    · rw [if_pos hk]
      exact (dedup_run_sublist key rest a).trans
        ((List.sublist_cons_self b rest).cons_cons a)
    · rw [if_neg hk]
      exact (dedup_run_sublist key rest b).cons_cons a

/-- `dedup_by_key key l` is a sublist of `l`. -/
theorem dedup_by_key_sublist {α β : Type} [DecidableEq β] (key : α → β) (l : List α) :
    (dedup_by_key key l).Sublist l := by
  cases l with
  | nil => simp [dedup_by_key]
  | cons a rest => rw [dedup_by_key]; exact dedup_run_sublist key rest a

/-- Deduplicating a run of a list sorted by key leaves strictly
increasing keys. -/
theorem dedup_run_pairwise {α β : Type} [DecidableEq β] [LinearOrder β] (key : α → β) :
    ∀ (l : List α) (a : α),
      List.Pairwise (fun x y => key x ≤ key y) (a :: l) →
      List.Pairwise (fun x y => key x < key y) (dedup_run key a l)
  | [], a, _ => by simp [dedup_run]
  | b :: rest, a, h => by
    rw [dedup_run]
    have hab : key a ≤ key b := (List.pairwise_cons.mp h).1 b (by simp)
    have hpb : List.Pairwise (fun x y => key x ≤ key y) (b :: rest) :=
      (List.pairwise_cons.mp h).2
    by_cases hk : key a = key b
    · rw [if_pos hk]
      exact dedup_run_pairwise key rest a
        (h.sublist ((List.sublist_cons_self b rest).cons_cons a))
    · rw [if_neg hk]
      rw [List.pairwise_cons]
      refine ⟨?_, dedup_run_pairwise key rest b hpb⟩
      intro x hx
      have hxmem : x ∈ b :: rest := (dedup_run_sublist key rest b).subset hx
      have hbx : key b ≤ key x := by
        rcases List.mem_cons.mp hxmem with rfl | hxr
        · exact le_refl _
        · exact (List.pairwise_cons.mp hpb).1 x hxr
      exact lt_of_lt_of_le (lt_of_le_of_ne hab hk) hbx

/-- A run whose keys are pairwise distinct is left unchanged. -/
theorem dedup_run_eq_self {α β : Type} [DecidableEq β] (key : α → β) :
    ∀ (l : List α) (a : α),
      List.Pairwise (fun x y => key x ≠ key y) (a :: l) → dedup_run key a l = a :: l
  | [], _, _ => by simp [dedup_run]
  | b :: rest, a, h => by
    have hab : key a ≠ key b := (List.pairwise_cons.mp h).1 b (by simp)
    rw [dedup_run, if_neg hab,
      dedup_run_eq_self key rest b (List.pairwise_cons.mp h).2]

/-- A list whose keys are pairwise distinct is left unchanged by
`dedup_by_key`. -/
theorem dedup_by_key_eq_self {α β : Type} [DecidableEq β] (key : α → β) (l : List α)
    (h : List.Pairwise (fun x y => key x ≠ key y) l) : dedup_by_key key l = l := by
  cases l with
  | nil => simp [dedup_by_key]
  | cons a rest => rw [dedup_by_key]; exact dedup_run_eq_self key rest a h

/-- Sorting by timestamp and then deduplicating timestamps yields
strictly increasing timestamps. -/
theorem sorted_dedup_pairwise (l : List Kline) :
    List.Pairwise (fun a b => a.timestamp < b.timestamp)
      (dedup_by_key (fun k => k.timestamp) (List.insertionSort ts_le l)) := by
  have hp : List.Pairwise (fun a b : Kline => a.timestamp ≤ b.timestamp)
      (List.insertionSort ts_le l) := List.sorted_insertionSort ts_le l
  cases hsort : List.insertionSort ts_le l with
  | nil => simp [dedup_by_key]
  | cons a rest =>
    rw [dedup_by_key]
    exact dedup_run_pairwise (fun k => k.timestamp) rest a (hsort ▸ hp)

/-! ## C1: returned candle series is strictly increasing and dedup-clean -/

/-- C1: whatever the per-window outcomes, `get_all_klines` returns a
candle list with strictly increasing (hence duplicate-free)
timestamps, and re-applying the final sort-then-dedup pass to the
result is a no-op. -/
theorem get_all_klines_strictly_increasing
    (symbol : String) (category : MarketCategory) (interval : String)
    (start_time end_time : Option ℤ) (now : ℤ)
    (responses : ℕ → HttpOutcome (List Kline)) (res : List Kline)
    (h : get_all_klines symbol category interval start_time end_time now responses =
      Except.ok res) :
    List.Pairwise (fun a b => a.timestamp < b.timestamp) res ∧
    List.insertionSort ts_le res = res ∧
    dedup_by_key (fun k => k.timestamp) res = res := by
  have hres : postprocess start_time
      ((List.range (kline_windows interval start_time end_time now).length).flatMap
        (fun i => windowKlines (responses i))) = res := by
    simpa [get_all_klines] using h
  subst hres
  have hpair : List.Pairwise (fun a b : Kline => a.timestamp < b.timestamp)
      (postprocess start_time
        ((List.range (kline_windows interval start_time end_time now).length).flatMap
          (fun i => windowKlines (responses i)))) := by
    show List.Pairwise _ (dedup_by_key (fun k => k.timestamp) (List.insertionSort ts_le _))
    exact sorted_dedup_pairwise _
  refine ⟨hpair, ?_, ?_⟩
  · exact List.Sorted.insertionSort_eq (hpair.imp (fun hxy => le_of_lt hxy))
  · exact dedup_by_key_eq_self _ _ (hpair.imp (fun hxy => ne_of_lt hxy))

/-- A candle with all price fields set to `v`. -/
def demo_kline (ts : ℤ) (v : ℚ) : Kline :=
  { timestamp := ts, open_ := v, high := v, low := v, close := v, volume := v }

/-- An oracle answering every window request with a parsed success
carrying out-of-order rows and a duplicated timestamp. -/
def demo_klines_responses : ℕ → HttpOutcome (List Kline) :=
  fun _ => HttpOutcome.parsed
    { ret_code := 0, ret_msg := "OK",
      result := some [demo_kline 120 0, demo_kline 60 0, demo_kline 120 1] }

/-- The backfill result for `demo_klines_responses` on a single-window
call: sorted, first-of-run kept for the duplicated timestamp. -/
def demo_klines_result : List Kline := [demo_kline 60 0, demo_kline 120 0]

/-- Concrete instance of `get_all_klines_strictly_increasing`: one
window returning rows `[120, 60, 120]` yields `[60, 120]`, strictly
increasing and a fixed point of sort-then-dedup. -/
theorem get_all_klines_strictly_increasing_witness :
    List.Pairwise (fun a b : Kline => a.timestamp < b.timestamp) demo_klines_result ∧
    List.insertionSort ts_le demo_klines_result = demo_klines_result ∧
    dedup_by_key (fun k => k.timestamp) demo_klines_result = demo_klines_result :=
  get_all_klines_strictly_increasing "BTCUSDT" MarketCategory.Linear "1"
    (some 0) (some 50000) 0 demo_klines_responses demo_klines_result rfl

/-! ## C2: window cap and start-time filter -/

/-- The backward window loop emits at most `fuel` windows. -/
theorem batch_ranges_loop_length_le (batch_duration start : ℤ) :
    ∀ (fuel : ℕ) (batch_end : ℤ),
      (batch_ranges_loop batch_duration start fuel batch_end).length ≤ fuel
  | 0, _ => le_refl 0
  | fuel + 1, batch_end => by
    rw [batch_ranges_loop]
    by_cases hb : max (batch_end - batch_duration) start - 1 ≤ start
    · simp only [if_pos hb, List.length_cons, List.length_nil]
      omega
    · simp only [if_neg hb, List.length_cons]
      have := batch_ranges_loop_length_le batch_duration start fuel
        (max (batch_end - batch_duration) start - 1)
      omega

/-- `get_all_klines` issues at most 20 windows. -/
theorem kline_windows_length_le (interval : String) (start_time end_time : Option ℤ)
    (now : ℤ) : (kline_windows interval start_time end_time now).length ≤ 20 := by
  unfold kline_windows
  exact le_trans (batch_ranges_loop_length_le _ _ _ _) (min_le_right _ 20)

/-- Length bound for a flatMap whose pieces are uniformly bounded. -/
theorem flatMap_length_le {α : Type} (c : ℕ) (f : ℕ → List α) :
    ∀ ns : List ℕ, (∀ i, (f i).length ≤ c) → (ns.flatMap f).length ≤ c * ns.length
  | [], _ => by simp
  | n :: rest, h => by
    rw [List.flatMap_cons, List.length_append, List.length_cons]
    have h1 := h n
    have h2 := flatMap_length_le c f rest h
    calc (f n).length + (rest.flatMap f).length ≤ c + c * rest.length := by omega
      _ = c * (rest.length + 1) := by ring

/-- `postprocess` never lengthens the collected list. -/
theorem postprocess_length_le (start_time : Option ℤ) (l : List Kline) :
    (postprocess start_time l).length ≤ l.length := by
  unfold postprocess
  cases start_time with
  | none =>
    refine le_trans (List.Sublist.length_le (dedup_by_key_sublist _ _)) ?_
    rw [(List.perm_insertionSort ts_le l).length_eq]
  | some s =>
    refine le_trans (List.Sublist.length_le (dedup_by_key_sublist _ _)) ?_
    rw [(List.perm_insertionSort ts_le _).length_eq]
    exact List.length_filter_le _ l

/-- Every candle surviving `postprocess` with an explicit start bound
sits at or after that bound. -/
theorem postprocess_mem_start (start_ts : ℤ) (l : List Kline) (k : Kline)
    (hk : k ∈ postprocess (some start_ts) l) : start_ts ≤ k.timestamp := by
  unfold postprocess at hk
  have h1 : k ∈ List.insertionSort ts_le
      (l.filter (fun k => decide (start_ts ≤ k.timestamp))) :=
    (dedup_by_key_sublist _ _).subset hk
  have h2 : k ∈ l.filter (fun k => decide (start_ts ≤ k.timestamp)) :=
    (List.perm_insertionSort ts_le _).mem_iff.mp h1
  exact of_decide_eq_true (List.mem_filter.mp h2).2

/-- C2: when every window response carries at most 1000 candles (the
request limit), the result holds at most 20 × 1000 = 20,000 candles;
and with an explicitly supplied `start_time`, every returned candle's
timestamp is at or after it. -/
theorem get_all_klines_cap_and_start_filter
    (symbol : String) (category : MarketCategory) (interval : String)
    (start_time end_time : Option ℤ) (now : ℤ)
    (responses : ℕ → HttpOutcome (List Kline)) (res : List Kline)
    (h : get_all_klines symbol category interval start_time end_time now responses =
      Except.ok res) :
    ((∀ i, (windowKlines (responses i)).length ≤ 1000) → res.length ≤ 20000) ∧
    (∀ start_ts, start_time = some start_ts → ∀ k ∈ res, start_ts ≤ k.timestamp) := by
  have hres : postprocess start_time
      ((List.range (kline_windows interval start_time end_time now).length).flatMap
        (fun i => windowKlines (responses i))) = res := by
    simpa [get_all_klines] using h
  subst hres
  constructor
  · intro hbound
    refine le_trans (postprocess_length_le _ _) ?_
    refine le_trans
      (flatMap_length_le 1000 (fun i => windowKlines (responses i)) _ hbound) ?_
    rw [List.length_range]
    have := kline_windows_length_le interval start_time end_time now
    omega
  · rintro start_ts rfl k hk
    exact postprocess_mem_start start_ts _ k hk

/-- Concrete instance of `get_all_klines_cap_and_start_filter`: the
single-window call stays under the cap and respects `start = 0`. -/
theorem get_all_klines_cap_and_start_filter_witness :
    demo_klines_result.length ≤ 20000 ∧
    ∀ k ∈ demo_klines_result, (0 : ℤ) ≤ k.timestamp := by
  have h := get_all_klines_cap_and_start_filter "BTCUSDT" MarketCategory.Linear "1"
    (some 0) (some 50000) 0 demo_klines_responses demo_klines_result rfl
  exact ⟨h.1 (fun i => by norm_num [demo_klines_responses, windowKlines]),
    fun k hk => h.2 0 rfl k hk⟩

/-! ## C4: per-window failures are swallowed -/

/-- A rejected window outcome contributes no candles. -/
theorem windowKlines_of_failure (o : HttpOutcome (List Kline))
    (h : is_failure o = true) : windowKlines o = [] := by
  cases o with
  | parsed resp =>
    rcases resp with ⟨rc, rm, result⟩
    by_cases hrc : rc = 0
    · cases result with
      | none => simp [windowKlines, hrc]
      | some rows => simp [is_failure, hrc] at h
    · simp [windowKlines, hrc]
  | sendFailed m => rfl
  | textFailed m => rfl
  | parseFailed m => rfl

/-- C4: `get_all_klines` always returns `Ok` — and replacing any one
window's outcome by a failure (transport error, unreadable or
unparsable body, non-zero `retCode`, or missing `result`) produces
exactly the result of that window contributing zero candles, the other
windows untouched. -/
theorem get_all_klines_swallows_failures
    (symbol : String) (category : MarketCategory) (interval : String)
    (start_time end_time : Option ℤ) (now : ℤ)
    (responses : ℕ → HttpOutcome (List Kline)) (j : ℕ)
    (failure : HttpOutcome (List Kline)) (hfail : is_failure failure = true) :
    (∃ res, get_all_klines symbol category interval start_time end_time now responses =
      Except.ok res) ∧
    get_all_klines symbol category interval start_time end_time now
        (Function.update responses j failure) =
      get_all_klines symbol category interval start_time end_time now
        (Function.update responses j
          (HttpOutcome.parsed { ret_code := 0, ret_msg := "", result := some [] })) := by
  refine ⟨⟨_, rfl⟩, ?_⟩
  have hw : (fun i => windowKlines (Function.update responses j failure i)) =
      (fun i => windowKlines (Function.update responses j
        (HttpOutcome.parsed { ret_code := 0, ret_msg := "", result := some [] }) i)) := by
    funext i
    by_cases hij : i = j
    · subst hij
      rw [Function.update_same, Function.update_same,
        windowKlines_of_failure failure hfail]
      rfl
    · simp [Function.update, hij]
  simp only [get_all_klines, hw]

/-- Concrete instance of `get_all_klines_swallows_failures`: the call
returns `Ok`, and replacing window 0's outcome by a transport timeout
is the same as that window answering success with zero rows. -/
theorem get_all_klines_swallows_failures_witness :
    (∃ res, get_all_klines "BTCUSDT" MarketCategory.Linear "1" (some 0) (some 50000) 0
      demo_klines_responses = Except.ok res) ∧
    get_all_klines "BTCUSDT" MarketCategory.Linear "1" (some 0) (some 50000) 0
        (Function.update demo_klines_responses 0 (HttpOutcome.sendFailed "timeout")) =
      get_all_klines "BTCUSDT" MarketCategory.Linear "1" (some 0) (some 50000) 0
        (Function.update demo_klines_responses 0
          (HttpOutcome.parsed { ret_code := 0, ret_msg := "", result := some [] })) :=
  get_all_klines_swallows_failures "BTCUSDT" MarketCategory.Linear "1" (some 0)
    (some 50000) 0 demo_klines_responses 0 (HttpOutcome.sendFailed "timeout") rfl

/-! ## C5: request signing -/

/-- A client with fixed test credentials. -/
def demo_client : BybitClient :=
  { api_key := "testkey", api_secret := "testsecret", testnet := false }

/-- C5: `sign` is the lowercase hex encoding of HMAC-SHA256, keyed by
the secret's UTF-8 bytes, of the UTF-8 bytes of
`timestamp ++ api_key ++ recv_window ++ params`; it is deterministic
(equal inputs give equal signatures); `auth_headers` fixes
`recv_window` at 5000 and carries the matching signature; and the
construction is anchored by a known-answer vector (checked against an
independent HMAC-SHA256 implementation). -/
theorem sign_hmac_spec :
    (∀ (c : BybitClient) (params : String) (timestamp recv_window : ℤ),
      c.sign params timestamp recv_window =
        hex_encode (hmac_sha256 (utf8_bytes c.api_secret)
          (utf8_bytes (toString timestamp ++ c.api_key ++ toString recv_window ++ params)))) ∧
    (∀ (c c' : BybitClient) (p p' : String) (t t' r r' : ℤ),
      c = c' → p = p' → t = t' → r = r' → c.sign p t r = c'.sign p' t' r') ∧
    (∀ (c : BybitClient) (params : String) (now_ms : ℤ),
      (c.auth_headers params now_ms).lookup "X-BAPI-RECV-WINDOW" = some "5000" ∧
      (c.auth_headers params now_ms).lookup "X-BAPI-SIGN" =
        some (c.sign params now_ms 5000)) ∧
    demo_client.sign "category=linear" 1700000000000 5000 =
      "bb83e8488b138c2b23221db49ca6198f560509321d4b611ae6a530efe7070a7d" := by
  refine ⟨fun c params t r => rfl, ?_, fun c params now_ms => ?_, by decide⟩
  · rintro c c' p p' t t' r r' rfl rfl rfl rfl
    rfl
  · exact ⟨by simp only [BybitClient.auth_headers, List.lookup]
              norm_num
              rfl,
      by simp [BybitClient.auth_headers, List.lookup]⟩

/-- Concrete instance of `sign_hmac_spec`: determinism at fixed
inputs. -/
theorem sign_hmac_spec_witness :
    demo_client.sign "category=linear" 1700000000000 5000 =
      demo_client.sign "category=linear" 1700000000000 5000 :=
  sign_hmac_spec.2.1 demo_client demo_client "category=linear" "category=linear"
    1700000000000 1700000000000 5000 5000 rfl rfl rfl rfl
